import Mathlib

/-!
Shallow embedding of the HID report decoder of `mouse-configurator`
(`src/event.rs`): header parsing, the four payload decoders, the
multi-frame reassembly step `report_1`, and the pull-based event
iterator.  Bytes are modelled as `Nat`; `u8`/`u16` truncation is made
explicit with `% 256` where the source relies on the machine width.
-/

namespace MouseConf

/-- Modelled from the spec: the fixed device signature base
(`HP_SIGNATURE`, defined at the crate root, not under `src/`).  The
spec only says it is a fixed constant shared with the device firmware;
every claim below is uniform in its exact value. -/
def HP_SIGNATURE : Nat := 0xCF3

/-- `u16::from_le_bytes([low, high])` on two bytes. -/
def u16_from_bytes (low high : Nat) : Nat :=
  low % 256 + 256 * (high % 256)

structure Header where
  signature : Nat
  composit_device : Nat
  length : Nat
  sequence : Nat
deriving Repr, DecidableEq

/-- `Header::new`: read exactly 4 bytes; bitwise field extraction
(`x & 0b1111` on a byte is `x % 16`, `x >> 4` is `x % 256 / 16`). -/
def Header.new (data : List Nat) : Option Header :=
  match data.get? 0, data.get? 1, data.get? 2, data.get? 3 with
  | some b0, some b1, some b2, some b3 =>
      some { signature := u16_from_bytes b0 (b1 % 16),
             composit_device := b1 % 256 / 16 % 16,
             length := u16_from_bytes b2 (b3 % 4),
             sequence := b3 % 256 / 4 % 64 }
  | _, _, _, _ => none

/-- `Header::kind`: `signature.checked_sub(HP_SIGNATURE)`. -/
def Header.kind (h : Header) : Option Nat :=
  if h.signature < HP_SIGNATURE then none else some (h.signature - HP_SIGNATURE)

/-- Modelled from the spec: the `Button` record lives at the crate root
(not under `src/`): id, host id, press type (one byte each) and an
opaque action byte sequence, exactly as constructed in
`report_1_packet_14`. -/
structure Button where
  id : Nat
  host_id : Nat
  press_type : Nat
  action : List Nat
deriving Repr, DecidableEq

inductive Event where
  | Firmware (version : Nat × Nat × Nat) (device : String) (serial : String)
  | Battery (low_level crit_level power_off_timeout auto_report_delay level : Nat)
  | Buttons (total_buttons programmed_buttons host_id : Nat)
      (support_long_press support_double_press support_down_up_press : Bool)
      (support_simulate support_program_stop : Bool) (buttons : List Button)
  | Mouse (max_dpi min_dpi dpi step_dpi : Nat)
      (nb_sensitivity_wheel1 : Option Nat) (sensitivity_wheel1 : Nat)
      (nb_sensitivity_wheel2 : Option Nat) (sensitivity_wheel2 : Nat)
      (host_id cut_off_max cut_off : Nat)
      (support_left_handed left_handed support_no_save_to_flash : Bool)
deriving Repr, DecidableEq

/-- UTF-8 decoding of a byte list, modelling `str::from_utf8`
(RFC 3629 validation: no overlong forms, no surrogates, max U+10FFFF). -/
def utf8DecodeChars : List Nat → Option (List Char)
  | [] => some []
  | b :: rest =>
    if b ≤ 0x7F then
      (utf8DecodeChars rest).map (fun cs => Char.ofNat b :: cs)
    else if 0xC2 ≤ b ∧ b ≤ 0xDF then
      match rest with
      | c1 :: rest1 =>
        if 0x80 ≤ c1 ∧ c1 ≤ 0xBF then
          (utf8DecodeChars rest1).map (fun cs =>
            Char.ofNat ((b - 0xC0) * 64 + (c1 - 0x80)) :: cs)
        else none
      | [] => none
    else if 0xE0 ≤ b ∧ b ≤ 0xEF then
      match rest with
      | c1 :: c2 :: rest2 =>
        if (0x80 ≤ c1 ∧ c1 ≤ 0xBF) ∧ (0x80 ≤ c2 ∧ c2 ≤ 0xBF) ∧
            (b ≠ 0xE0 ∨ 0xA0 ≤ c1) ∧ (b ≠ 0xED ∨ c1 ≤ 0x9F) then
          (utf8DecodeChars rest2).map (fun cs =>
            Char.ofNat ((b - 0xE0) * 4096 + (c1 - 0x80) * 64 + (c2 - 0x80)) :: cs)
        else none
      | _ => none
    else if 0xF0 ≤ b ∧ b ≤ 0xF4 then
      match rest with
      | c1 :: c2 :: c3 :: rest3 =>
        if (0x80 ≤ c1 ∧ c1 ≤ 0xBF) ∧ (0x80 ≤ c2 ∧ c2 ≤ 0xBF) ∧
            (0x80 ≤ c3 ∧ c3 ≤ 0xBF) ∧ (b ≠ 0xF0 ∨ 0x90 ≤ c1) ∧
            (b ≠ 0xF4 ∨ c1 ≤ 0x8F) then
          (utf8DecodeChars rest3).map (fun cs =>
            Char.ofNat ((b - 0xF0) * 262144 + (c1 - 0x80) * 4096 +
              (c2 - 0x80) * 64 + (c3 - 0x80)) :: cs)
        else none
      | _ => none
    else none

def utf8Decode (bytes : List Nat) : Option String :=
  (utf8DecodeChars bytes).map String.mk

/-- The length-prefixed item loop of `report_1_packet_1` starting after
byte 4: each item is a 1-byte length `n` followed by `n` raw bytes,
clamped to the available data. -/
def lengthPrefixedItemsAux : Nat → List Nat → List (List Nat)
  | 0, _ => []
  | _, [] => []
  | fuel + 1, size :: rest =>
      rest.take size :: lengthPrefixedItemsAux fuel (rest.drop size)

def lengthPrefixedItems (l : List Nat) : List (List Nat) :=
  lengthPrefixedItemsAux l.length l

/-- `report_1_packet_1` (kind 1, Firmware). -/
def report_1_packet_1 (data : List Nat) : Option Event :=
  if data.length ≤ 3 then none
  else
    let firmware_version := u16_from_bytes (data.getD 0 0) (data.getD 1 0)
    let major_version := firmware_version / 1000
    let minor_version := firmware_version % 1000 / 10
    let patch_version := firmware_version % 10
    let items := lengthPrefixedItems (data.drop 4)
    match items.get? 0, items.get? 1 with
    | some d0, some d1 =>
      match utf8Decode d0, utf8Decode d1 with
      | some device, some serial =>
          some (.Firmware (major_version, minor_version, patch_version) device serial)
      | _, _ => none
    | _, _ => none

/-- `report_1_packet_6` (kind 6, Battery). -/
def report_1_packet_6 (data : List Nat) : Option Event :=
  if data.length ≤ 4 then none
  else
    some (.Battery (data.getD 0 0) (data.getD 1 0) (data.getD 2 0)
      (data.getD 3 0) (data.getD 4 0))

/-- The button-record loop of `report_1_packet_14`: while fewer than
`n` buttons have been collected, stop if fewer than 4 bytes remain at
position `i`, otherwise read id/host/press, an action length, and up
to that many action bytes. -/
def parseButtons : Nat → List Nat → Nat → List Button
  | 0, _, _ => []
  | n + 1, data, i =>
    if data.length ≤ i + 3 then []
    else
      let size := data.getD (i + 3) 0
      let action := (data.drop (i + 4)).take size
      let button : Button :=
        { id := data.getD i 0, host_id := data.getD (i + 1) 0,
          press_type := data.getD (i + 2) 0, action := action }
      button :: parseButtons n data (i + 4 + action.length)

/-- `report_1_packet_14` (kind 14, Buttons); byte 4 is read through an
Lsb0 bit view, i.e. `flags[k] = testBit flags k`. -/
def report_1_packet_14 (data : List Nat) : Option Event :=
  if data.get? 0 ≠ some 0 then none
  else if data.length ≤ 4 then none
  else
    let flags := data.getD 4 0
    some (.Buttons (data.getD 1 0) (data.getD 2 0) (data.getD 3 0)
      (flags.testBit 0) (flags.testBit 1) (flags.testBit 2)
      (flags.testBit 3) (flags.testBit 4)
      (parseButtons (data.getD 2 0) data 5))

/-- `report_1_packet_18` (kind 18, Mouse); `NonZeroU8::new` is the
`Option` that is `none` exactly on zero. -/
def report_1_packet_18 (data : List Nat) : Option Event :=
  if data.get? 0 ≠ some 0 then none
  else if data.length ≤ 14 then none
  else
    let nb1 := data.getD 9 0 % 16
    let nb2 := data.getD 10 0 % 16
    let flags := data.getD 14 0
    some (.Mouse (u16_from_bytes (data.getD 1 0) (data.getD 2 0))
      (u16_from_bytes (data.getD 3 0) (data.getD 4 0))
      (u16_from_bytes (data.getD 5 0) (data.getD 6 0))
      (u16_from_bytes (data.getD 7 0) (data.getD 8 0))
      (if nb1 = 0 then none else some nb1) (data.getD 9 0 % 256 / 16)
      (if nb2 = 0 then none else some nb2) (data.getD 10 0 % 256 / 16)
      (data.getD 11 0) (data.getD 12 0) (data.getD 13 0)
      (flags.testBit 0) (flags.testBit 1) (flags.testBit 2))

/-- The mutable state of `HpMouseEventIterator`: the reassembly buffer
and the header of the in-progress logical packet. -/
structure IterState where
  incoming : List Nat
  header : Header
deriving Repr, DecidableEq

/-- Kind dispatch at the end of `report_1`. -/
def dispatch (kind : Nat) (payload : List Nat) : Option Event :=
  match kind with
  | 1 => report_1_packet_1 payload
  | 6 => report_1_packet_6 payload
  | 14 => report_1_packet_14 payload
  | 18 => report_1_packet_18 payload
  | _ => none

/-- Outcome of one `report_1` call: either a failed `assert_eq!`
(protocol violation, a panic in the source) or a new state together
with an optional decoded event. -/
inductive R1Out where
  | violation
  | result (st : IterState) (ev : Option Event)
deriving Repr, DecidableEq

/-- The tail of `report_1` after the consistency asserts have passed:
append the frame's payload bytes (everything after the 4-byte header)
and, once the declared length has been accumulated, truncate and
dispatch; `header2` is the stored header after the update. -/
def report_1_finish (st : IterState) (header : Header) (kind : Nat)
    (header2 : Header) (data : List Nat) : R1Out :=
  let incoming := st.incoming ++ data.drop 4
  if header.length ≤ incoming.length then
    .result { incoming := [], header := header2 }
      (dispatch kind (incoming.take header.length))
  else
    .result { incoming := incoming, header := header2 } none

/-- `report_1`: parse the header, drop unrecognized signatures, check
reassembly consistency (the `assert_eq!`s, modelled as the
`.violation` outcome), then accumulate and dispatch. -/
def report_1 (st : IterState) (data : List Nat) : R1Out :=
  match Header.new data with
  | none => .result st none
  | some header =>
    match header.kind with
    | none => .result st none
    | some kind =>
      if header.sequence = 0 then
        if st.incoming.length = 0 then
          report_1_finish st header kind header data
        else .violation
      else if header.signature = st.header.signature ∧
          header.length = st.header.length ∧
          header.sequence = st.header.sequence + 1 then
        report_1_finish st header kind
          { st.header with sequence := st.header.sequence + 1 } data
      else .violation

/-- Modelled from the spec: one result of the transport's blocking
`read` — the bytes actually read (zero length signals end of stream)
or an I/O error, abstracted as a numeric code. -/
inductive ReadResult where
  | ok (bytes : List Nat)
  | err (e : Nat)
deriving Repr, DecidableEq

/-- What one call of `Iterator::next` produces: an item
(`Ok event` / `Err e`), the end of the stream (`None`), or a panic
inside `report_1`. -/
inductive NextOutcome where
  | item (r : Except Nat Event)
  | stop
  | violation
deriving Repr

/-- `Iterator::next` for `HpMouseEventIterator`, driven by a finite
script of transport reads; returns `none` when the script is exhausted
with the loop still blocked, otherwise the outcome, the state, and the
unconsumed reads. -/
def iterNext (st : IterState) : List ReadResult → Option (NextOutcome × IterState × List ReadResult)
  | [] => none
  | .err e :: rest => some (.item (.error e), st, rest)
  | .ok bytes :: rest =>
    if bytes.length = 0 then some (.stop, st, rest)
    else
      match bytes.getD 0 0 with
      | 1 =>
        match report_1 st (bytes.drop 1) with
        | .violation => some (.violation, st, rest)
        | .result st2 (some ev) => some (.item (.ok ev), st2, rest)
        | .result st2 none => iterNext st2 rest
      | _ => iterNext st rest

/-- A 4-byte header encoding a signature, composite-device id,
declared length and sequence number, inverse to `Header.new`. -/
def encodeHeader (sig comp len seq : Nat) : List Nat :=
  [sig % 256, sig / 256 % 16 + 16 * (comp % 16),
   len % 256, len / 256 % 4 + 4 * (seq % 64)]

/-- Feed a list of raw frames through `report_1`, collecting the
decoded events; `none` if any frame trips a protocol violation. -/
def runFrames : IterState → List (List Nat) → Option (IterState × List Event)
  | st, [] => some (st, [])
  | st, f :: fs =>
    match report_1 st f with
    | .violation => none
    | .result st2 ev =>
      match runFrames st2 fs with
      | none => none
      | some (st3, evs) => some (st3, ev.toList ++ evs)

/-- The frames of one logical packet: chunk `m` is prefixed by a
header with sequence `s + m`. -/
def framesFrom (sig comp len : Nat) : Nat → List (List Nat) → List (List Nat)
  | _, [] => []
  | s, c :: cs => (encodeHeader sig comp len s ++ c) :: framesFrom sig comp len (s + 1) cs

/-! ## Helper lemmas -/

theorem Header.new_cons (b0 b1 b2 b3 : Nat) (rest : List Nat) :
    Header.new (b0 :: b1 :: b2 :: b3 :: rest) =
      some ⟨u16_from_bytes b0 (b1 % 16), b1 % 256 / 16 % 16,
            u16_from_bytes b2 (b3 % 4), b3 % 256 / 4 % 64⟩ := rfl

theorem encodeHeader_append (sig comp len seq : Nat) (l : List Nat) :
    encodeHeader sig comp len seq ++ l =
      (sig % 256) :: (sig / 256 % 16 + 16 * (comp % 16)) ::
        (len % 256) :: (len / 256 % 4 + 4 * (seq % 64)) :: l := rfl

theorem Header.new_encode (sig comp len seq : Nat) (payload : List Nat)
    (hs : sig < 4096) (hl : len < 1024) (hq : seq < 64) :
    Header.new (encodeHeader sig comp len seq ++ payload) =
      some ⟨sig, comp % 16, len, seq⟩ := by
  rw [encodeHeader_append, Header.new_cons]
  simp only [Option.some.injEq, Header.mk.injEq, u16_from_bytes]
  refine ⟨?_, ?_, ?_, ?_⟩ <;> omega

theorem drop4_cons (b0 b1 b2 b3 : Nat) (l : List Nat) :
    List.drop 4 (b0 :: b1 :: b2 :: b3 :: l) = l := rfl

theorem parseButtons_length_le (n : Nat) (data : List Nat) (i : Nat) :
    (parseButtons n data i).length ≤ n := by
  induction n generalizing i with
  | zero => simp [parseButtons]
  | succ n ih =>
    rw [parseButtons]
    split
    · simp
    · simpa using ih _

theorem flatten_length_pos (cs : List (List Nat)) (hne : cs ≠ [])
    (hce : ∀ c ∈ cs, c ≠ []) : 0 < cs.flatten.length := by
  cases cs with
  | nil => exact absurd rfl hne
  | cons c cs' =>
    have hc : c ≠ [] := hce c (by simp)
    have : 0 < c.length := List.length_pos.mpr hc
    simp only [List.flatten_cons, List.length_append]
    omega

/-! ## Claims -/

/-- C2: for every Buttons (kind 14) payload, the decoded buttons list
has length at most `programmed_buttons` (byte 2), so decoding never
produces more button records than declared; and a truncated trailing
record (fewer than 4 bytes left at the start of a record) stops the
list without producing a partial entry. -/
theorem c2_buttons_bounded (data : List Nat) :
    (∀ t p hid f1 f2 f3 f4 f5 btns,
        report_1_packet_14 data = some (.Buttons t p hid f1 f2 f3 f4 f5 btns) →
        btns.length ≤ p ∧ p = data.getD 2 0) ∧
    (∀ n i, data.length ≤ i + 3 → parseButtons n data i = []) := by
  constructor
  · intro t p hid f1 f2 f3 f4 f5 btns h
    unfold report_1_packet_14 at h
    split at h
    · exact absurd h (by simp)
    · split at h
      · exact absurd h (by simp)
      · simp only [Option.some.injEq, Event.Buttons.injEq] at h
        obtain ⟨-, hp, -, -, -, -, -, -, hb⟩ := h
        subst hp
        rw [← hb]
        exact ⟨parseButtons_length_le _ _ _, rfl⟩
  · intro n i hshort
    cases n with
    | zero => rfl
    | succ n => rw [parseButtons, if_pos hshort]

theorem c2_buttons_bounded_witness :
    (([⟨9, 8, 7, []⟩] : List Button).length ≤ 1 ∧
        (1 : Nat) = [0, 7, 1, 0, 19, 9, 8, 7, 0].getD 2 0) ∧
    parseButtons 5 [0, 7, 1, 0, 19, 9, 8, 7, 0] 7 = [] :=
  ⟨(c2_buttons_bounded [0, 7, 1, 0, 19, 9, 8, 7, 0]).1 7 1 0
      true true false false true [⟨9, 8, 7, []⟩] (by decide),
   (c2_buttons_bounded [0, 7, 1, 0, 19, 9, 8, 7, 0]).2 5 7 (by decide)⟩

/-- C3 as stated is false: in the payload
`[0xE8,0x03,0x00,0x00,0x04,'M','o','u','s','e',0x03,'0','0','1']` the
device-name length prefix is 4, so the decoder takes only `"Mous"` and
the serial item starts at the byte `'e'`; the decoded event is not
`Firmware{(1,0,0), "Mouse", "001"}`. -/
theorem c3_counterexample :
    report_1_packet_1 [0xE8, 0x03, 0x00, 0x00, 0x04, 77, 111, 117, 115, 101, 0x03, 48, 48, 49] ≠
      some (.Firmware (1, 0, 0) "Mouse" "001") := by decide

/-- C3 (amended): with the device-name length prefix corrected to 5,
the payload `[0xE8,0x03,0x00,0x00,0x05,'M','o','u','s','e',0x03,'0','0','1']`
decodes to `Firmware{version:(1,0,0), device:"Mouse", serial:"001"}`. -/
theorem c3_firmware_scenario :
    report_1_packet_1 [0xE8, 0x03, 0x00, 0x00, 0x05, 77, 111, 117, 115, 101, 0x03, 48, 48, 49] =
      some (.Firmware (1, 0, 0) "Mouse" "001") := by decide

/-- C4 as stated is false: byte 4 of the payload is `0b00010011`,
whose bit 4 is set, so `support_program_stop` decodes to `true`, not
`false` (shown here at `id = 9`, `host = 8`, `press = 7`). -/
theorem c4_counterexample :
    report_1_packet_14 [0, 7, 1, 0, 0b00010011, 9, 8, 7, 0] ≠
      some (.Buttons 7 1 0 true true false false false [⟨9, 8, 7, []⟩]) := by decide

/-- C4 (amended): the Buttons payload
`[0x00, 7, 1, 0, 0b00010011, id, host, press, 0]` decodes to
`total_buttons = 7`, `programmed_buttons = 1`, `host_id = 0`,
`support_long_press = true`, `support_double_press = true`,
`support_down_up_press = false`, `support_simulate = false`,
`support_program_stop = true` (bit 4 of `0b00010011` is set), and
exactly one `Button` with an empty action byte sequence. -/
theorem c4_buttons_scenario (id host press : Nat) :
    report_1_packet_14 [0, 7, 1, 0, 0b00010011, id, host, press, 0] =
      some (.Buttons 7 1 0 true true false false true [⟨id, host, press, []⟩]) := by
  simp only [report_1_packet_14, parseButtons]
  norm_num
  decide

/-- C5: every Battery (kind 6) payload of at least 5 bytes decodes to
the five 8-bit fields taken unchanged and in order from bytes 0–4;
every payload of 4 or fewer bytes yields nothing. -/
theorem c5_battery_roundtrip (data : List Nat) :
    (4 < data.length →
        report_1_packet_6 data = some (.Battery (data.getD 0 0) (data.getD 1 0)
          (data.getD 2 0) (data.getD 3 0) (data.getD 4 0))) ∧
    (data.length ≤ 4 → report_1_packet_6 data = none) := by
  constructor
  · intro h
    rw [report_1_packet_6, if_neg (by omega)]
  · intro h
    rw [report_1_packet_6, if_pos h]

theorem c5_battery_roundtrip_witness :
    report_1_packet_6 [10, 5, 30, 60, 85] = some (.Battery 10 5 30 60 85) ∧
    report_1_packet_6 [1, 2, 3, 4] = none :=
  ⟨(c5_battery_roundtrip [10, 5, 30, 60, 85]).1 (by decide),
   (c5_battery_roundtrip [1, 2, 3, 4]).2 (by decide)⟩

/-- C6: in every successfully decoded Mouse (kind 18) payload,
`nb_sensitivity_wheel1` is absent exactly when the low nibble of
byte 9 is 0 and otherwise carries that nibble, and independently the
same holds for `nb_sensitivity_wheel2` and byte 10, while
`sensitivity_wheel1`/`sensitivity_wheel2` are the high nibbles of
bytes 9 and 10. -/
theorem c6_wheel_nibbles (data : List Nat) (a b c d : Nat) (nb1 : Option Nat)
    (s1 : Nat) (nb2 : Option Nat) (s2 : Nat) (hid com coff : Nat) (f1 f2 f3 : Bool)
    (hdec : report_1_packet_18 data =
      some (.Mouse a b c d nb1 s1 nb2 s2 hid com coff f1 f2 f3)) :
    (nb1 = none ↔ data.getD 9 0 % 16 = 0) ∧
    (∀ v, nb1 = some v → v = data.getD 9 0 % 16) ∧
    s1 = data.getD 9 0 % 256 / 16 ∧
    (nb2 = none ↔ data.getD 10 0 % 16 = 0) ∧
    (∀ v, nb2 = some v → v = data.getD 10 0 % 16) ∧
    s2 = data.getD 10 0 % 256 / 16 := by
  unfold report_1_packet_18 at hdec
  split at hdec
  · exact absurd hdec (by simp)
  · split at hdec
    · exact absurd hdec (by simp)
    · simp only [Option.some.injEq, Event.Mouse.injEq] at hdec
      obtain ⟨-, -, -, -, h5, h6, h7, h8, -, -, -, -, -, -⟩ := hdec
      refine ⟨?_, ?_, h6.symm, ?_, ?_, h8.symm⟩
      · rw [← h5]
        by_cases h : data.getD 9 0 % 16 = 0 <;> simp [h]
      · intro v hv
        rw [← h5] at hv
        by_cases h : data.getD 9 0 % 16 = 0
        · rw [if_pos h] at hv
          exact absurd hv (by simp)
        · rw [if_neg h] at hv
          injection hv with hv
          exact hv.symm
      · rw [← h7]
        by_cases h : data.getD 10 0 % 16 = 0 <;> simp [h]
      · intro v hv
        rw [← h7] at hv
        by_cases h : data.getD 10 0 % 16 = 0
        · rw [if_pos h] at hv
          exact absurd hv (by simp)
        · rw [if_neg h] at hv
          injection hv with hv
          exact hv.symm

theorem c6_wheel_nibbles_witness :
    ((none : Option Nat) = none ↔
        [0, 0, 0, 0, 0, 0, 0, 0, 0, 0x30, 5, 5, 6, 7, 5].getD 9 0 % 16 = 0) ∧
    (∀ v, (none : Option Nat) = some v →
        v = [0, 0, 0, 0, 0, 0, 0, 0, 0, 0x30, 5, 5, 6, 7, 5].getD 9 0 % 16) ∧
    (3 : Nat) = [0, 0, 0, 0, 0, 0, 0, 0, 0, 0x30, 5, 5, 6, 7, 5].getD 9 0 % 256 / 16 ∧
    ((some 5 : Option Nat) = none ↔
        [0, 0, 0, 0, 0, 0, 0, 0, 0, 0x30, 5, 5, 6, 7, 5].getD 10 0 % 16 = 0) ∧
    (∀ v, (some 5 : Option Nat) = some v →
        v = [0, 0, 0, 0, 0, 0, 0, 0, 0, 0x30, 5, 5, 6, 7, 5].getD 10 0 % 16) ∧
    (0 : Nat) = [0, 0, 0, 0, 0, 0, 0, 0, 0, 0x30, 5, 5, 6, 7, 5].getD 10 0 % 256 / 16 :=
  c6_wheel_nibbles [0, 0, 0, 0, 0, 0, 0, 0, 0, 0x30, 5, 5, 6, 7, 5]
    0 0 0 0 none 3 (some 5) 0 5 6 7 true false true (by decide)

theorem report_1_finish_ne_violation (st : IterState) (header : Header)
    (kind : Nat) (header2 : Header) (data : List Nat) :
    report_1_finish st header kind header2 data ≠ .violation := by
  intro hv
  simp only [report_1_finish] at hv
  split at hv <;> exact R1Out.noConfusion hv

/-- C7: on a parsed report whose signature maps to a recognized kind,
the reassembly step raises a protocol violation exactly when either
the sequence is 0 while the buffer still holds bytes of an incomplete
prior packet, or the sequence is positive and the header's signature
or length differs from the in-progress packet's header or the sequence
is not exactly one greater than the stored sequence. -/
theorem c7_violation_iff (st : IterState) (data : List Nat) (h : Header) (k : Nat)
    (hh : Header.new data = some h) (hk : h.kind = some k) :
    report_1 st data = .violation ↔
      (h.sequence = 0 ∧ st.incoming ≠ []) ∨
      (h.sequence ≠ 0 ∧ ¬(h.signature = st.header.signature ∧
        h.length = st.header.length ∧ h.sequence = st.header.sequence + 1)) := by
  simp only [report_1, hh, hk]
  by_cases h0 : h.sequence = 0
  · by_cases hi : st.incoming.length = 0
    · rw [if_pos h0, if_pos hi]
      have hemp : st.incoming = [] := List.length_eq_zero.mp hi
      constructor
      · intro hv
        exact absurd hv (report_1_finish_ne_violation _ _ _ _ _)
      · rintro (⟨-, hx⟩ | ⟨hx, -⟩)
        · exact absurd hemp hx
        · exact absurd h0 hx
    · rw [if_pos h0, if_neg hi]
      constructor
      · intro _
        exact Or.inl ⟨h0, fun he => hi (by rw [he]; rfl)⟩
      · intro _
        rfl
  · rw [if_neg h0]
    by_cases hc : h.signature = st.header.signature ∧
        h.length = st.header.length ∧ h.sequence = st.header.sequence + 1
    · rw [if_pos hc]
      constructor
      · intro hv
        exact absurd hv (report_1_finish_ne_violation _ _ _ _ _)
      · rintro (⟨he, -⟩ | ⟨-, hnc⟩)
        · exact absurd he h0
        · exact absurd hc hnc
    · rw [if_neg hc]
      constructor
      · intro _
        exact Or.inr ⟨h0, hc⟩
      · intro _
        rfl

theorem c7_violation_iff_witness :
    (report_1 ⟨[5], ⟨0, 0, 0, 0⟩⟩ [0xF3, 0x0C, 0, 0] = .violation ↔
      ((0 : Nat) = 0 ∧ ([5] : List Nat) ≠ []) ∨
      ((0 : Nat) ≠ 0 ∧ ¬((0xCF3 : Nat) = 0 ∧ (0 : Nat) = 0 ∧ (0 : Nat) = 0 + 1))) :=
  c7_violation_iff ⟨[5], ⟨0, 0, 0, 0⟩⟩ [0xF3, 0x0C, 0, 0] ⟨0xCF3, 0, 0, 0⟩ 0
    (by decide) (by decide)

/-- C8: a report whose parsed header signature is strictly below the
device signature base produces no event and leaves the reassembly
state (buffer and stored header) unchanged. -/
theorem c8_below_base_ignored (st : IterState) (data : List Nat) (h : Header)
    (hh : Header.new data = some h) (hlt : h.signature < HP_SIGNATURE) :
    report_1 st data = .result st none := by
  simp only [report_1, hh, Header.kind, if_pos hlt]

theorem c8_below_base_ignored_witness :
    report_1 ⟨[1, 2], ⟨7, 7, 7, 7⟩⟩ [0, 0, 0, 0] =
      .result ⟨[1, 2], ⟨7, 7, 7, 7⟩⟩ none :=
  c8_below_base_ignored ⟨[1, 2], ⟨7, 7, 7, 7⟩⟩ [0, 0, 0, 0] ⟨0, 0, 0, 0⟩
    (by decide) (by decide)

/-- C10: a report with sequence 0, a recognized kind among 1, 6, 14,
18 and declared length 0, arriving on an empty reassembly buffer, is
dispatched immediately on the empty payload; all four payload
decoders return nothing on the empty byte sequence, so no event is
emitted and the buffer is empty afterwards. -/
theorem c10_zero_length (st : IterState) (data : List Nat) (h : Header) (k : Nat)
    (hh : Header.new data = some h) (hk : h.kind = some k)
    (hseq : h.sequence = 0) (hlen : h.length = 0)
    (hmem : k = 1 ∨ k = 6 ∨ k = 14 ∨ k = 18) (hinc : st.incoming = []) :
    report_1 st data = .result ⟨[], h⟩ none ∧
    report_1_packet_1 [] = none ∧ report_1_packet_6 [] = none ∧
    report_1_packet_14 [] = none ∧ report_1_packet_18 [] = none := by
  refine ⟨?_, rfl, rfl, rfl, rfl⟩
  simp only [report_1, hh, hk]
  rw [if_pos hseq, if_pos (by rw [hinc]; rfl)]
  simp only [report_1_finish]
  rw [if_pos (by rw [hlen]; exact Nat.zero_le _)]
  rw [hlen, List.take_zero]
  have hd : dispatch k [] = none := by
    rcases hmem with rfl | rfl | rfl | rfl <;> rfl
  rw [hd]

theorem c10_zero_length_witness :
    (report_1 ⟨[], ⟨9, 9, 9, 9⟩⟩ [0xF4, 0x0C, 0, 0] =
      .result ⟨[], ⟨0xCF4, 0, 0, 0⟩⟩ none) ∧
    report_1_packet_1 [] = none ∧ report_1_packet_6 [] = none ∧
    report_1_packet_14 [] = none ∧ report_1_packet_18 [] = none :=
  c10_zero_length ⟨[], ⟨9, 9, 9, 9⟩⟩ [0xF4, 0x0C, 0, 0] ⟨0xCF4, 0, 0, 0⟩ 1
    (by decide) (by decide) (by decide) (by decide) (Or.inl rfl) rfl

theorem report_1_start (sig comp L : Nat) (c : List Nat) (h0 : Header)
    (hsig : HP_SIGNATURE ≤ sig) (hs : sig < 4096) (hl : L < 1024) :
    report_1 ⟨[], h0⟩ (encodeHeader sig comp L 0 ++ c) =
      if L ≤ c.length then
        .result ⟨[], ⟨sig, comp % 16, L, 0⟩⟩
          (dispatch (sig - HP_SIGNATURE) (c.take L))
      else .result ⟨c, ⟨sig, comp % 16, L, 0⟩⟩ none := by
  simp only [report_1, Header.new_encode sig comp L 0 c hs hl (by omega),
    Header.kind, if_neg (Nat.not_lt.mpr hsig)]
  rw [if_pos (by simp), if_pos (by simp)]
  simp only [report_1_finish, encodeHeader_append, drop4_cons, List.nil_append]

theorem report_1_cont (sig comp L j cd : Nat) (acc c : List Nat)
    (hsig : HP_SIGNATURE ≤ sig) (hs : sig < 4096) (hl : L < 1024) (hj : j + 1 < 64) :
    report_1 ⟨acc, ⟨sig, cd, L, j⟩⟩ (encodeHeader sig comp L (j + 1) ++ c) =
      if L ≤ acc.length + c.length then
        .result ⟨[], ⟨sig, cd, L, j + 1⟩⟩
          (dispatch (sig - HP_SIGNATURE) ((acc ++ c).take L))
      else .result ⟨acc ++ c, ⟨sig, cd, L, j + 1⟩⟩ none := by
  simp only [report_1, Header.new_encode sig comp L (j + 1) c hs hl hj,
    Header.kind, if_neg (Nat.not_lt.mpr hsig)]
  rw [if_neg (by simp), if_pos (by simp)]
  simp only [report_1_finish, encodeHeader_append, drop4_cons, List.length_append]

theorem runFrames_cont (sig comp L : Nat) (chunks : List (List Nat)) :
    ∀ (acc : List Nat) (j : Nat),
      HP_SIGNATURE ≤ sig → sig < 4096 → L < 1024 →
      chunks ≠ [] → (∀ c ∈ chunks, c ≠ []) →
      acc.length + chunks.flatten.length = L →
      j + chunks.length ≤ 63 →
      runFrames ⟨acc, ⟨sig, comp % 16, L, j⟩⟩ (framesFrom sig comp L (j + 1) chunks) =
        some (⟨[], ⟨sig, comp % 16, L, j + chunks.length⟩⟩,
          (dispatch (sig - HP_SIGNATURE) (acc ++ chunks.flatten)).toList) := by
  induction chunks with
  | nil => intro acc j _ _ _ hne _ _ _; exact absurd rfl hne
  | cons c cs ih =>
    intro acc j hsig hs hl _ hce hlen hj
    simp only [framesFrom, runFrames]
    rw [report_1_cont sig comp L j (comp % 16) acc c hsig hs hl
      (by simp only [List.length_cons] at hj; omega)]
    by_cases hcs : cs = []
    · subst hcs
      have hL : L = acc.length + c.length := by
        simp only [List.flatten_cons, List.flatten_nil, List.append_nil,
          List.length_append] at hlen
        omega
      rw [if_pos (by omega)]
      simp only [runFrames, List.flatten_cons, List.flatten_nil, List.append_nil,
        List.length_cons, List.length_nil]
      rw [List.take_of_length_le (by simp only [List.length_append]; omega)]
    · have hpos : 0 < cs.flatten.length :=
        flatten_length_pos cs hcs (fun x hx => hce x (List.mem_cons_of_mem _ hx))
      have hlt : acc.length + c.length < L := by
        simp only [List.flatten_cons, List.length_append] at hlen
        omega
      rw [if_neg (by omega)]
      have h1 : j + 1 + cs.length = j + (c :: cs).length := by
        simp only [List.length_cons]
        omega
      have h2 : acc ++ c ++ cs.flatten = acc ++ (c :: cs).flatten := by
        simp only [List.flatten_cons, List.append_assoc]
      have heq := ih (acc ++ c) (j + 1) hsig hs hl hcs
        (fun x hx => hce x (List.mem_cons_of_mem _ hx))
        (by simp only [List.flatten_cons, List.length_append] at hlen ⊢; omega)
        (by simp only [List.length_cons] at hj ⊢; omega)
      rw [h1, h2] at heq
      simp only [heq]
      simp

/-- C1: for every recognized signature and every partition of a
logical packet's payload into k ≥ 1 nonempty contiguous chunks (k at
most 64, so that the 6-bit sequence numbers 0,…,k-1 exist), feeding
the frames with sequence numbers 0,1,…,k-1 through the reassembly
step from an empty buffer produces exactly the decoded event of the
whole payload, the same as feeding one frame with sequence 0. -/
theorem c1_reassembly_split (sig comp : Nat) (chunks : List (List Nat)) (h0 : Header)
    (hsig : HP_SIGNATURE ≤ sig) (hs : sig < 4096)
    (hne : chunks ≠ []) (hce : ∀ c ∈ chunks, c ≠ [])
    (hk : chunks.length ≤ 64) (hl : chunks.flatten.length ≤ 1023) :
    runFrames ⟨[], h0⟩ (framesFrom sig comp chunks.flatten.length 0 chunks) =
      some (⟨[], ⟨sig, comp % 16, chunks.flatten.length, chunks.length - 1⟩⟩,
        (dispatch (sig - HP_SIGNATURE) chunks.flatten).toList) ∧
    runFrames ⟨[], h0⟩ [encodeHeader sig comp chunks.flatten.length 0 ++ chunks.flatten] =
      some (⟨[], ⟨sig, comp % 16, chunks.flatten.length, 0⟩⟩,
        (dispatch (sig - HP_SIGNATURE) chunks.flatten).toList) := by
  constructor
  · cases chunks with
    | nil => exact absurd rfl hne
    | cons c cs =>
      simp only [framesFrom, runFrames]
      rw [report_1_start sig comp _ c h0 hsig hs (by omega)]
      by_cases hcs : cs = []
      · subst hcs
        simp only [List.flatten_cons, List.flatten_nil, List.append_nil,
          List.length_cons, List.length_nil]
        rw [if_pos (le_refl _)]
        simp only [runFrames, List.take_length]
        simp [Option.toList]
      · have hpos : 0 < cs.flatten.length :=
          flatten_length_pos cs hcs (fun x hx => hce x (List.mem_cons_of_mem _ hx))
        rw [if_neg (by simp only [List.flatten_cons, List.length_append]; omega)]
        have h1 : 0 + cs.length = (c :: cs).length - 1 := by
          simp only [List.length_cons]
          omega
        have h2 : c ++ cs.flatten = (c :: cs).flatten := by
          simp only [List.flatten_cons]
        have heq := runFrames_cont sig comp (c :: cs).flatten.length cs c 0 hsig hs
          (by omega) hcs (fun x hx => hce x (List.mem_cons_of_mem _ hx))
          (by simp only [List.flatten_cons, List.length_append])
          (by simp only [List.length_cons] at hk; omega)
        rw [h1, h2] at heq
        simp only [heq]
        simp
  · simp only [runFrames]
    rw [report_1_start sig comp _ chunks.flatten h0 hsig hs (by omega)]
    rw [if_pos (le_refl _)]
    simp only [List.take_length, runFrames]
    simp [Option.toList]

theorem c1_reassembly_split_witness :
    runFrames ⟨[], ⟨0, 0, 0, 0⟩⟩
        (framesFrom 0xCF9 0 ([[10, 5, 30], [60, 85]] : List (List Nat)).flatten.length 0
          [[10, 5, 30], [60, 85]]) =
      some (⟨[], ⟨0xCF9, 0, [[10, 5, 30], [60, 85]].flatten.length, 1⟩⟩,
        (dispatch (0xCF9 - HP_SIGNATURE) [[10, 5, 30], [60, 85]].flatten).toList) ∧
    runFrames ⟨[], ⟨0, 0, 0, 0⟩⟩
        [encodeHeader 0xCF9 0 ([[10, 5, 30], [60, 85]] : List (List Nat)).flatten.length 0 ++
          [[10, 5, 30], [60, 85]].flatten] =
      some (⟨[], ⟨0xCF9, 0, [[10, 5, 30], [60, 85]].flatten.length, 0⟩⟩,
        (dispatch (0xCF9 - HP_SIGNATURE) [[10, 5, 30], [60, 85]].flatten).toList) :=
  c1_reassembly_split 0xCF9 0 [[10, 5, 30], [60, 85]] ⟨0, 0, 0, 0⟩
    (by decide) (by decide) (by decide) (by decide) (by decide) (by decide)

theorem iterNext_rem_lt (script : List ReadResult) :
    ∀ (st : IterState) (o : NextOutcome) (st2 : IterState) (rem : List ReadResult),
      iterNext st script = some (o, st2, rem) → rem.length < script.length := by
  induction script with
  | nil => intro st o st2 rem h; exact absurd h (by simp [iterNext])
  | cons r rest ih =>
    intro st o st2 rem h
    cases r with
    | err e =>
      simp only [iterNext, Option.some.injEq, Prod.mk.injEq] at h
      obtain ⟨-, -, hrem⟩ := h
      simp [← hrem]
    | ok bytes =>
      simp only [iterNext] at h
      split at h
      · simp only [Option.some.injEq, Prod.mk.injEq] at h
        obtain ⟨-, -, hrem⟩ := h
        simp [← hrem]
      · split at h
        · split at h
          · simp only [Option.some.injEq, Prod.mk.injEq] at h
            obtain ⟨-, -, hrem⟩ := h
            simp [← hrem]
          · simp only [Option.some.injEq, Prod.mk.injEq] at h
            obtain ⟨-, -, hrem⟩ := h
            simp [← hrem]
          · exact Nat.lt_trans (ih _ _ _ _ h) (by simp)
        · exact Nat.lt_trans (ih _ _ _ _ h) (by simp)

/-- C9: the iterator's `next` ends the stream exactly when the
transport read returns zero bytes; a failing read yields an error item
carrying that I/O error; a report whose first byte is not 1 produces
no event and the loop continues with the next read; and a report-1
frame that yields no event continues the loop with the updated
reassembly state. -/
theorem c9_iterator_contract (st : IterState) (rest : List ReadResult) :
    (∀ bytes, iterNext st (.ok bytes :: rest) = some (.stop, st, rest) ↔ bytes = []) ∧
    (∀ e, iterNext st (.err e :: rest) = some (.item (.error e), st, rest)) ∧
    (∀ bytes, bytes ≠ [] → bytes.getD 0 0 ≠ 1 →
        iterNext st (.ok bytes :: rest) = iterNext st rest) ∧
    (∀ bytes st2, bytes ≠ [] → bytes.getD 0 0 = 1 →
        report_1 st (bytes.drop 1) = .result st2 none →
        iterNext st (.ok bytes :: rest) = iterNext st2 rest) := by
  refine ⟨?_, fun e => rfl, ?_, ?_⟩
  · intro bytes
    constructor
    · intro h
      by_contra hne
      have hlen : bytes.length ≠ 0 := fun hz => hne (List.length_eq_zero.mp hz)
      simp only [iterNext, if_neg hlen] at h
      split at h
      · split at h
        · exact absurd h (by simp)
        · simp only [Option.some.injEq, Prod.mk.injEq] at h
          obtain ⟨hout, -, -⟩ := h
          exact NextOutcome.noConfusion hout
        · have := iterNext_rem_lt rest _ _ _ _ h
          exact absurd this (by simp)
      · have := iterNext_rem_lt rest _ _ _ _ h
        exact absurd this (by simp)
    · intro h
      subst h
      rfl
  · intro bytes hne hb1
    have hlen : bytes.length ≠ 0 := fun hz => hne (List.length_eq_zero.mp hz)
    simp only [iterNext, if_neg hlen]
  · intro bytes st2 hne hb1 hrep
    have hlen : bytes.length ≠ 0 := fun hz => hne (List.length_eq_zero.mp hz)
    simp only [iterNext, if_neg hlen, hb1, hrep]

theorem c9_iterator_contract_witness :
    (iterNext ⟨[], ⟨0, 0, 0, 0⟩⟩ [.ok []] = some (.stop, ⟨[], ⟨0, 0, 0, 0⟩⟩, []) ↔
      ([] : List Nat) = []) ∧
    iterNext ⟨[], ⟨0, 0, 0, 0⟩⟩ [.err 7] = some (.item (.error 7), ⟨[], ⟨0, 0, 0, 0⟩⟩, []) ∧
    iterNext ⟨[], ⟨0, 0, 0, 0⟩⟩ [.ok [2, 9], .err 7] = iterNext ⟨[], ⟨0, 0, 0, 0⟩⟩ [.err 7] :=
  ⟨(c9_iterator_contract ⟨[], ⟨0, 0, 0, 0⟩⟩ []).1 [],
   (c9_iterator_contract ⟨[], ⟨0, 0, 0, 0⟩⟩ []).2.1 7,
   (c9_iterator_contract ⟨[], ⟨0, 0, 0, 0⟩⟩ [.err 7]).2.2.1 [2, 9]
     (by decide) (by decide)⟩

end MouseConf
